import Mathlib

/-!
Verification of the `sym` symbolic-computation core: a shallow embedding of
`src/rational.rs`, `src/polynomial.rs`, `src/solver.rs` and `src/bigint.rs`,
together with proofs and refutations of the specified properties.

Conventions of the embedding:
* Rust `i32`/`i64` values are modelled as `Int` (the properties under
  consideration all assume the absence of fixed-width overflow); Rust's `%`
  on signed integers is truncated remainder, i.e. `Int.tmod`, and `/` is
  truncated division, i.e. `Int.tdiv`; `.abs()` is `Int.natAbs` (cast back).
* Rust `u64` limbs are modelled as `Nat` together with explicit `% 2 ^ 64`
  wrap-around in `overflowing_add` / `overflowing_sub`.
* A Rust `while` loop is modelled by structural recursion on an explicit
  fuel argument chosen large enough that the fuel never runs out on the
  executions the theorems talk about.
* A Rust `panic!`/`todo!`/`expect` is modelled as `Option.none` in the
  fallible (`?`-suffixed) variants of the corresponding functions.
-/

set_option maxRecDepth 8192

namespace SymCore

/-- Rust's `Ord` for `i64`/`i32`/`usize` scalar comparison. -/
def cmpInt (a b : Int) : Ordering :=
  if a < b then .lt else if a = b then .eq else .gt

/-- Rust's `Ord` for `u64`/`usize` scalar comparison. -/
def cmpNat (a b : Nat) : Ordering :=
  if a < b then .lt else if a = b then .eq else .gt

/-- Loop body of `greatest_common_divisor` (src/rational.rs lines 60-69):
`while b != 0 { let t = b; b = a % b; a = t; }` with Rust's truncated `%`.
The fuel argument only bounds the iteration count; `greatest_common_divisor`
supplies enough fuel that it never runs out. -/
def gcd_go : Nat → Int → Int → Int
  | 0, a, _ => a
  | fuel + 1, a, b => if b = 0 then a else gcd_go fuel b (Int.tmod a b)

/-- `greatest_common_divisor(a, b)` from src/rational.rs: Euclidean algorithm
using Rust's `%` (truncated remainder). The result can be negative. -/
def greatest_common_divisor (a b : Int) : Int :=
  gcd_go (b.natAbs + 1) a b

/-- `Rational { numer, denom }` from src/rational.rs, over mathematical
integers (the source uses `i32`; the specified properties assume no
overflow). -/
structure Rational where
  numer : Int
  denom : Int
deriving DecidableEq, Repr

/-- `Rational::new(numer, denom)` from src/rational.rs lines 78-95, on the
non-panicking path (`denom != 0` is checked separately by `Rational.new?`):
compute `gcd = greatest_common_divisor(numer, denom).abs()`, move the sign of
the denominator into the numerator, and divide both by `gcd` (Rust `/` on
`i32` is truncated division). -/
def Rational.new (numer denom : Int) : Rational :=
  let gcd : Int := (greatest_common_divisor numer denom).natAbs
  let numer' := if denom < 0 then -numer else numer
  let denom' := if denom < 0 then -denom else denom
  ⟨numer'.tdiv gcd, denom'.tdiv gcd⟩

/-- `Rational::new` including its `panic!("denominator cannot be zero.")`
guard, modelled as `none`. -/
def Rational.new? (numer denom : Int) : Option Rational :=
  if denom = 0 then none else some (Rational.new numer denom)

/-- `impl From<i32> for Rational`: `Rational { numer: x, denom: 1 }`. -/
def Rational.ofInt (x : Int) : Rational := ⟨x, 1⟩

/-- `Rational::reciprocal`: swaps numerator and denominator (no reduction,
no zero check). -/
def Rational.reciprocal (r : Rational) : Rational := ⟨r.denom, r.numer⟩

/-- `Rational::pow`: raises numerator and denominator independently. -/
def Rational.pow (r : Rational) (e : Nat) : Rational :=
  ⟨r.numer ^ e, r.denom ^ e⟩

/-- `Rational::reduce` from src/rational.rs lines 127-134: divides both
components by `greatest_common_divisor(numer, denom)` — note the missing
`.abs()`, unlike `Rational::new`. -/
def Rational.reduce (r : Rational) : Rational :=
  let gcd := greatest_common_divisor r.numer r.denom
  ⟨r.numer.tdiv gcd, r.denom.tdiv gcd⟩

/-- `Rational::as_integer`. -/
def Rational.as_integer (r : Rational) : Option Int :=
  if r.denom = 1 then some r.numer else none

/-- `impl Add for Rational`: cross-multiplication, canonicalized through
`Rational::new`. -/
def Rational.add (a b : Rational) : Rational :=
  Rational.new (a.numer * b.denom + a.denom * b.numer) (a.denom * b.denom)

/-- `impl Neg for Rational`: `Rational::new(-numer, denom)`. -/
def Rational.neg (a : Rational) : Rational :=
  Rational.new (-a.numer) a.denom

/-- `impl Sub for Rational`: `self + -other`. -/
def Rational.sub (a b : Rational) : Rational := a.add b.neg

/-- `impl Mul for Rational`: componentwise product through `Rational::new`. -/
def Rational.mul (a b : Rational) : Rational :=
  Rational.new (a.numer * b.numer) (a.denom * b.denom)

/-- `impl Div for Rational`: `self * rhs.reciprocal()`. -/
def Rational.div (a b : Rational) : Rational := a.mul b.reciprocal

/-- `impl Div for Rational` with the `Rational::new` zero-denominator panic
made explicit: `a * b.reciprocal()` is `Rational::new(a.numer * b.denom,
a.denom * b.numer)`, which panics exactly when `a.denom * b.numer = 0`. -/
def Rational.div? (a b : Rational) : Option Rational :=
  Rational.new? (a.numer * b.denom) (a.denom * b.numer)

/-- `impl PartialEq for Rational`: componentwise equality of the two
`reduce`d representations. -/
def Rational.beq (a b : Rational) : Bool :=
  decide (a.reduce = b.reduce)

/-- `impl Ord for Rational`: compares `a.numer * b.denom` with
`a.denom * b.numer`. -/
def Rational.cmp (a b : Rational) : Ordering :=
  cmpInt (a.numer * b.denom) (a.denom * b.numer)

/-- The rational number a `Rational` represents. -/
def Rational.val (r : Rational) : ℚ := (r.numer : ℚ) / (r.denom : ℚ)

/-- The canonical-form invariant of the data model: positive denominator and
coprime numerator/denominator magnitudes. -/
def Rational.Valid (r : Rational) : Prop :=
  0 < r.denom ∧ Nat.gcd r.numer.natAbs r.denom.natAbs = 1

/-- `integer_sqrt`'s binary-search loop (src/rational.rs lines 13-25):
`while low != high - 1 { mid = (low + high) / 2; if mid * mid <= value
{ low = mid } else { high = mid } }`. Fuel bounds the iteration count. -/
def integer_sqrt_go : Nat → Int → Int → Int → Int
  | 0, _, low, _ => low
  | fuel + 1, value, low, high =>
    if low = high - 1 then low
    else
      let mid := (low + high).tdiv 2
      if mid * mid ≤ value then integer_sqrt_go fuel value mid high
      else integer_sqrt_go fuel value low mid

/-- `integer_sqrt(value)` from src/rational.rs lines 7-32. A negative input
hits `todo!("integer_sqrt: negative roots")`, modelled as `none`; a
non-square input returns `None` in the source as well. -/
def integer_sqrt (value : Int) : Option Int :=
  if value < 0 then none
  else
    let low := integer_sqrt_go (value.natAbs + 2) value 0 (value + 1)
    if low * low = value then some low else none

/-- `Rational::sqrt` from src/rational.rs lines 104-111; the two `expect`
calls on irrational components are modelled as `none`. -/
def Rational.sqrt? (r : Rational) : Option Rational := do
  let n ← integer_sqrt r.numer
  let d ← integer_sqrt r.denom
  pure ⟨n, d⟩

/-- `Polynomial` from src/polynomial.rs: a sparse exponent → coefficient
mapping. The source's `HashMap<u32, Rational>` is modelled as an association
list with (in any reachable state) pairwise distinct keys; the source caches
`degree` at construction as the maximum key of the non-empty map, which is
recomputed here (`Polynomial.degree`) — legitimate because both are
immutable. -/
structure Polynomial where
  coeffs : List (Nat × Rational)
deriving DecidableEq, Repr

/-- `Polynomial::degree`: the maximum key of the coefficient map. -/
def Polynomial.degree (p : Polynomial) : Nat :=
  p.coeffs.foldr (fun kv acc => max kv.1 acc) 0

/-- `Polynomial::get`: the stored coefficient, or zero when absent. -/
def Polynomial.get (p : Polynomial) (e : Nat) : Rational :=
  match p.coeffs.find? (fun kv => kv.1 == e) with
  | some kv => kv.2
  | none => Rational.ofInt 0

/-- `Polynomial::eval` (src/polynomial.rs lines 29-39): direct summation of
`coeff * x.pow(degree)` for `degree in 0..=self.degree()`, accumulated with
`+=`. -/
def Polynomial.eval (p : Polynomial) (x : Rational) : Rational :=
  (List.range (p.degree + 1)).foldl
    (fun result d => result.add ((p.get d).mul (x.pow d))) (Rational.ofInt 0)

/-- `Polynomial::diff` (src/polynomial.rs lines 42-53): each stored term at
exponent `> 0` becomes a term at exponent one less with coefficient
multiplied by the exponent; the 0-th order term is dropped. (The source then
rebuilds through `Polynomial::new`, which panics on an empty map — the
derivative of a constant; that state is not reached by any theorem below.) -/
def Polynomial.diff (p : Polynomial) : Polynomial :=
  ⟨p.coeffs.filterMap (fun kv =>
    if kv.1 > 0 then some (kv.1 - 1, kv.2.mul (Rational.ofInt kv.1)) else none)⟩

/-- `integer_factors(n)` from src/solver.rs lines 79-92:
`for i in 1..=n.abs() { if n % i == 0 { if n < 0 { push(-i) }; push(i) } }`.
Note negative factors are pushed only when `n` itself is negative. -/
def integer_factors (n : Int) : List Int :=
  (List.range n.natAbs).flatMap (fun k =>
    let i : Int := (k : Int) + 1
    if n.tmod i = 0 then (if n < 0 then [-i, i] else [i]) else [])

/-- The multiplicity `while` loop of the degree-≥3 arm (src/solver.rs lines
61-67): starting from `test_derivative = poly.diff()` and `multiplicity = 1`,
repeatedly differentiate while the derivative vanishes at the root. Fuel
bounds the iteration count; `solve_univariate_polynomial` passes
`degree + 1`, which the loop never exhausts on the executions the theorems
below evaluate. -/
def multiplicity_go : Nat → Polynomial → Rational → Nat → Nat
  | 0, _, _, multiplicity => multiplicity
  | fuel + 1, test_derivative, x, multiplicity =>
    if (test_derivative.eval x).beq (Rational.ofInt 0) then
      multiplicity_go fuel test_derivative.diff x (multiplicity + 1)
    else multiplicity

/-- `solve_univariate_polynomial` from src/solver.rs. The `expect` calls on
`as_integer` (non-integer extreme coefficients) are modelled as `none`, as
are the panics inside `Rational::sqrt`. `Rational::new(p, q)` in the search
loop is the non-panicking `Rational.new` (its divisor `q` is a factor of a
nonzero integer, hence nonzero — `integer_factors_ne_zero` below). -/
def solve_univariate_polynomial (poly : Polynomial) : Option (List Rational) :=
  match poly.degree with
  | 1 => some [((poly.get 0).neg).div (poly.get 1)]
  | 2 =>
    let a := poly.get 2
    let b := poly.get 1
    let c := poly.get 0
    let discriminant := (b.mul b).sub (((Rational.ofInt 4).mul a).mul c)
    match discriminant.cmp (Rational.ofInt 0) with
    | .gt => do
      let s1 ← discriminant.sqrt?
      let s2 ← discriminant.sqrt?
      some [((b.neg).sub s1).div ((Rational.ofInt 2).mul a),
            ((b.neg).add s2).div ((Rational.ofInt 2).mul a)]
    | .eq => some [(b.neg).div ((Rational.ofInt 2).mul a)]
    | .lt => some []
  | _ => do
    let c0 ← (poly.get 0).as_integer
    let cl ← (poly.get poly.degree).as_integer
    let ps := integer_factors c0
    let qs := integer_factors cl
    some (ps.flatMap fun p =>
      qs.flatMap fun q =>
        let potential_root := Rational.new p q
        if (poly.eval potential_root).beq (Rational.ofInt 0) then
          List.replicate (multiplicity_go (poly.degree + 1) poly.diff potential_root 1)
            potential_root
        else [])

/-- `Sign` from src/bigint.rs. -/
inductive Sign
  | Positive
  | Negative
deriving DecidableEq, Repr

/-- `BigInt` from src/bigint.rs: sign and base-2⁶⁴ limbs, least significant
first. Limbs are `Nat`s; every limb of every value a theorem evaluates is
`< 2 ^ 64`, and the limb operations wrap explicitly at `2 ^ 64`. -/
structure BigInt where
  sign : Sign
  digits : List Nat
deriving DecidableEq, Repr

/-- `u64::overflowing_add`. -/
def overflowing_add (x y : Nat) : Nat × Bool :=
  ((x + y) % 2 ^ 64, 2 ^ 64 ≤ x + y)

/-- `u64::overflowing_sub`. -/
def overflowing_sub (x y : Nat) : Nat × Bool :=
  (if x < y then x + 2 ^ 64 - y else x - y, x < y)

/-- `impl PartialEq for BigInt` (src/bigint.rs lines 200-227): both
single-limb zeros are equal; otherwise signs must match and, when the limb
sequences have equal length, all limbs must agree pairwise (zipped
comparison, which for equal lengths is list equality). -/
def BigInt.beq (a b : BigInt) : Bool :=
  if a.digits.length = 1 ∧ b.digits.length = 1 ∧
      a.digits.headD 0 = 0 ∧ b.digits.headD 0 = 0 then true
  else if a.sign ≠ b.sign then false
  else if a.digits.length = b.digits.length then a.digits == b.digits
  else false

/-- `impl Ord for BigInt` (src/bigint.rs lines 231-261): equal values compare
`Equal`; same-sign values compare by limb-sequence length, or — at equal
lengths — by the last (most significant) limb only, the result reversed for
negatives; differing signs decide directly. The final match arm is
unreachable (`unreachable!` in the source). -/
def BigInt.cmp (a b : BigInt) : Ordering :=
  if a.beq b then .eq
  else if a.sign = b.sign then
    let ord :=
      if a.digits.length = b.digits.length then
        cmpNat (a.digits.getLastD 0) (b.digits.getLastD 0)
      else cmpNat a.digits.length b.digits.length
    if a.sign = Sign.Positive then ord else ord.swap
  else
    match a.sign, b.sign with
    | Sign.Positive, Sign.Negative => .gt
    | Sign.Negative, Sign.Positive => .lt
    | _, _ => .eq

/-- The limb loop of `BigInt::add_positive` (src/bigint.rs lines 40-52):
iterates over the left operand's limbs, reading the right operand with
default 0, chaining two `overflowing_add`s per limb; a final escaping carry
appends one limb `1`. -/
def add_loop : List Nat → List Nat → Bool → List Nat
  | [], _, carry => if carry then [1] else []
  | (l :: ls), rs, carry =>
    let p1 := overflowing_add l (rs.headD 0)
    let p2 := overflowing_add p1.1 (if carry then 1 else 0)
    p2.1 :: add_loop ls rs.tail (p1.2 || p2.2)

/-- `BigInt::add_positive` (src/bigint.rs lines 27-58): orders the operands
by `self > other` (via `BigInt::cmp`) so the loop runs over the longer limb
sequence, then runs the carry loop. -/
def BigInt.add_positive (a b : BigInt) : BigInt :=
  let lr := if a.cmp b = .gt then (a, b) else (b, a)
  ⟨Sign.Positive, add_loop lr.1.digits lr.2.digits false⟩

/-- The limb loop of `BigInt::sub_positive` (src/bigint.rs lines 80-88):
chained `overflowing_sub`s; a borrow escaping the most significant limb is
dropped. -/
def sub_loop : List Nat → List Nat → Bool → List Nat
  | [], _, _ => []
  | (l :: ls), rs, borrow =>
    let p1 := overflowing_sub l (rs.headD 0)
    let p2 := overflowing_sub p1.1 (if borrow then 1 else 0)
    p2.1 :: sub_loop ls rs.tail (p1.2 || p2.2)

/-- `BigInt::sub_positive` (src/bigint.rs lines 60-94): the result sign is
`Positive` iff `self >= other` (via `BigInt::cmp`), the operands are swapped
accordingly, and the borrow loop runs over the left operand's limbs. -/
def BigInt.sub_positive (a b : BigInt) : BigInt :=
  let sign := if a.cmp b = .lt then Sign.Negative else Sign.Positive
  let lr := if sign = Sign.Positive then (a, b) else (b, a)
  ⟨sign, sub_loop lr.1.digits lr.2.digits false⟩

/-- `impl Neg for BigInt`: flips the sign, keeps the limbs. -/
def BigInt.neg (a : BigInt) : BigInt :=
  match a.sign with
  | Sign.Positive => ⟨Sign.Negative, a.digits⟩
  | Sign.Negative => ⟨Sign.Positive, a.digits⟩

/-- `impl Add for BigInt` (src/bigint.rs lines 120-132): dispatch over the
four sign combinations. -/
def BigInt.add (a b : BigInt) : BigInt :=
  match a.sign, b.sign with
  | Sign.Positive, Sign.Positive => a.add_positive b
  | Sign.Positive, Sign.Negative => a.sub_positive b.neg
  | Sign.Negative, Sign.Positive => b.sub_positive a.neg
  | Sign.Negative, Sign.Negative => ((a.neg).add_positive b.neg).neg

/-- `impl Sub for BigInt` (src/bigint.rs lines 140-152): dispatch over the
four sign combinations. -/
def BigInt.sub (a b : BigInt) : BigInt :=
  match a.sign, b.sign with
  | Sign.Positive, Sign.Positive => a.sub_positive b
  | Sign.Positive, Sign.Negative => a.add_positive b.neg
  | Sign.Negative, Sign.Positive => ((a.neg).add_positive b).neg
  | Sign.Negative, Sign.Negative => ((a.neg).sub_positive b.neg).neg

/-- `impl From<u64> for BigInt`: positive sign, single limb. -/
def BigInt.ofU64 (n : Nat) : BigInt := ⟨Sign.Positive, [n]⟩

/-- Positional value of a limb sequence, least significant first. -/
def digits_val : List Nat → Nat
  | [] => 0
  | (d :: ds) => d + 2 ^ 64 * digits_val ds

/-- The integer a `BigInt` represents. -/
def BigInt.toInt (a : BigInt) : Int :=
  match a.sign with
  | Sign.Positive => (digits_val a.digits : Int)
  | Sign.Negative => -(digits_val a.digits : Int)

/- Sanity checks of the embedding against the unit tests in
src/rational.rs. -/

example : Rational.new 16 4 = Rational.ofInt 4 := by decide
example : Rational.new 8 (-2) = Rational.ofInt (-4) := by decide
example : Rational.new (-32) 8 = Rational.ofInt (-4) := by decide
example : Rational.new (-8) (-3) = Rational.new 8 3 := by decide
example : (Rational.new 1 2).add (Rational.new 1 3) = Rational.new 5 6 := by decide
example : (Rational.new 1 2).sub (Rational.new (-1) 3) = Rational.new 5 6 := by decide
example : (Rational.new 1 2).mul (Rational.new (-1) 3) = Rational.new (-1) 6 := by decide
example : (Rational.new 1 2).div (Rational.new (-1) 3) = Rational.new (-3) 2 := by decide
example : (Rational.new 1 2).beq (Rational.new 2 4) = true := by decide
example : (Rational.new 1 2).beq (Rational.new (-2) 4) = false := by decide
example : Rational.beq ⟨6, 2⟩ ⟨7, 2⟩ = false := by decide
example : (Rational.new 1 4).cmp (Rational.new 1 2) = .lt := by decide
example : (Rational.new (-2) 3).cmp (Rational.new 1 2) = .lt := by decide

/- Sanity checks against the unit tests in src/polynomial.rs and the
end-to-end scenarios of the spec. -/

example :
    (Polynomial.mk [(0, .ofInt 1), (1, .ofInt 2), (2, .ofInt 3)]).degree = 2 := by decide

example :
    (Polynomial.mk [(0, .ofInt 1), (1, .ofInt 2), (2, .ofInt 3)]).eval (.ofInt 2)
      = .ofInt 17 := by decide

example :
    (Polynomial.mk [(0, .ofInt 1), (2, .ofInt (-5)), (3, .ofInt 69)]).diff
      = Polynomial.mk [(1, .ofInt (-10)), (2, .ofInt 207)] := by decide

example :
    solve_univariate_polynomial (Polynomial.mk [(1, .ofInt 5)])
      = some [.ofInt 0] := by decide

example :
    solve_univariate_polynomial (Polynomial.mk [(0, .ofInt 6), (1, .ofInt 5), (2, .ofInt 1)])
      = some [.ofInt (-3), .ofInt (-2)] := by decide

example :
    solve_univariate_polynomial (Polynomial.mk [(0, .ofInt 5), (2, .ofInt 1)])
      = some [] := by decide

example :
    solve_univariate_polynomial
      (Polynomial.mk [(0, .ofInt (-125)), (1, .ofInt (-25)), (2, .ofInt 5), (3, .ofInt 1)])
      = some [.ofInt (-5), .ofInt (-5), .ofInt 5] := by decide

/- Sanity checks against the unit tests in src/bigint.rs. -/

example : (BigInt.ofU64 5).add ⟨.Negative, [9]⟩ = ⟨.Negative, [4]⟩ := by decide
example : BigInt.add ⟨.Negative, [10]⟩ ⟨.Positive, [9]⟩ = ⟨.Negative, [1]⟩ := by decide
example : (BigInt.ofU64 5).sub ⟨.Negative, [69]⟩ = ⟨.Positive, [74]⟩ := by decide
example : BigInt.sub ⟨.Negative, [5]⟩ ⟨.Negative, [69]⟩ = ⟨.Positive, [64]⟩ := by decide
example :
    (BigInt.ofU64 0).sub ⟨.Positive, [1, 2 ^ 64 - 1]⟩ = ⟨.Negative, [1, 2 ^ 64 - 1]⟩ := by
  decide
example : BigInt.beq ⟨.Negative, [0]⟩ ⟨.Positive, [0]⟩ = true := by decide
example : BigInt.cmp ⟨.Negative, [10]⟩ ⟨.Negative, [2]⟩ = .lt := by decide

/-! Correctness of the embedded Euclidean algorithm. -/

theorem natAbs_tmod (a b : Int) : (Int.tmod a b).natAbs = a.natAbs % b.natAbs := by
  cases a <;> cases b <;> simp only [Int.tmod, Int.natAbs_neg] <;> rfl

theorem gcd_go_natAbs :
    ∀ (fuel : Nat) (a b : Int), b.natAbs < fuel →
      (gcd_go fuel a b).natAbs = Nat.gcd a.natAbs b.natAbs := by
  intro fuel
  induction fuel with
  | zero => intro a b h; omega
  | succ f ih =>
    intro a b h
    by_cases hb : b = 0
    · subst hb; simp [gcd_go]
    · have hbpos : 0 < b.natAbs := Int.natAbs_pos.mpr hb
      have hlt : (Int.tmod a b).natAbs < b.natAbs := by
        rw [natAbs_tmod]; exact Nat.mod_lt _ hbpos
      have hfuel : (Int.tmod a b).natAbs < f := by omega
      rw [gcd_go, if_neg hb, ih b (Int.tmod a b) hfuel, natAbs_tmod]
      rw [Nat.gcd_comm a.natAbs b.natAbs, Nat.gcd_rec b.natAbs a.natAbs, Nat.gcd_comm]

theorem greatest_common_divisor_natAbs (a b : Int) :
    (greatest_common_divisor a b).natAbs = Int.gcd a b :=
  gcd_go_natAbs (b.natAbs + 1) a b (Nat.lt_succ_self _)

/-! Structure of `Rational::new`. -/

theorem Rational.new_eq (n d : Int) :
    Rational.new n d =
      ⟨(if d < 0 then -n else n).tdiv (Int.gcd n d),
       (if d < 0 then -d else d).tdiv (Int.gcd n d)⟩ := by
  unfold Rational.new
  rw [greatest_common_divisor_natAbs]

/-- The canonical-form invariant of `Rational::new` on any nonzero
denominator: the spec's "normalizes sign into the numerator and reduces by
the greatest common divisor of the magnitudes". -/
theorem Rational.new_valid {n d : Int} (hd : d ≠ 0) : (Rational.new n d).Valid := by
  have hg : 0 < Int.gcd n d := Int.gcd_pos_of_ne_zero_right n hd
  have hgz : ((Int.gcd n d : Int)) ≠ 0 := by exact_mod_cast hg.ne'
  rw [Rational.new_eq]
  set n' : Int := if d < 0 then -n else n with hn'
  set d' : Int := if d < 0 then -d else d with hddef
  have hdpos : 0 < d' := by rw [hddef]; split <;> omega
  have hgcd' : Int.gcd n' d' = Int.gcd n d := by
    rw [hn', hddef]; split <;> simp [Int.gcd]
  have hdvdn : ((Int.gcd n d : Int)) ∣ n' := by
    rw [← hgcd']; exact Int.gcd_dvd_left
  have hdvdd : ((Int.gcd n d : Int)) ∣ d' := by
    rw [← hgcd']; exact Int.gcd_dvd_right
  constructor
  · show 0 < d'.tdiv (Int.gcd n d)
    rw [Int.tdiv_eq_ediv_of_dvd hdvdd]
    exact Int.ediv_pos_of_pos_of_dvd hdpos (by positivity) hdvdd
  · show Nat.gcd _ _ = 1
    have h1 : 0 < Int.gcd n' d' := hgcd' ▸ hg
    have := Int.gcd_div_gcd_div_gcd h1
    rw [hgcd'] at this
    show Int.gcd (n'.tdiv (Int.gcd n d)) (d'.tdiv (Int.gcd n d)) = 1
    rwa [Int.tdiv_eq_ediv_of_dvd hdvdn, Int.tdiv_eq_ediv_of_dvd hdvdd]

/-- `Rational::new` represents exactly the fraction `n / d` when `d ≠ 0`. -/
theorem Rational.new_val {n d : Int} (hd : d ≠ 0) :
    (Rational.new n d).val = (n : ℚ) / (d : ℚ) := by
  have hg : 0 < Int.gcd n d := Int.gcd_pos_of_ne_zero_right n hd
  rw [Rational.new_eq]
  set n' : Int := if d < 0 then -n else n with hn'
  set d' : Int := if d < 0 then -d else d with hddef
  have hgcd' : Int.gcd n' d' = Int.gcd n d := by
    rw [hn', hddef]; split <;> simp [Int.gcd]
  have hdvdn : ((Int.gcd n d : Int)) ∣ n' := by
    rw [← hgcd']; exact Int.gcd_dvd_left
  have hdvdd : ((Int.gcd n d : Int)) ∣ d' := by
    rw [← hgcd']; exact Int.gcd_dvd_right
  have hgQ : ((Int.gcd n d : ℚ)) ≠ 0 := by
    exact_mod_cast (Nat.cast_pos.mpr hg).ne'
  show ((n'.tdiv (Int.gcd n d) : ℚ)) / ((d'.tdiv (Int.gcd n d) : ℚ)) = (n : ℚ) / d
  rw [Int.tdiv_eq_ediv_of_dvd hdvdn, Int.tdiv_eq_ediv_of_dvd hdvdd,
    Int.cast_div_charZero hdvdn, Int.cast_div_charZero hdvdd]
  have hstep : ((n' : ℚ)) / ((Int.gcd n d : ℚ)) / (((d' : ℚ)) / ((Int.gcd n d : ℚ)))
      = (n' : ℚ) / (d' : ℚ) := by
    rw [div_div_div_cancel_right₀]
    exact hgQ
  push_cast at hstep ⊢
  rw [hstep, hn', hddef]
  split
  · push_cast; rw [neg_div_neg_eq]
  · rfl

/-! Value-level behaviour of the `Rational` operations. -/

theorem Rational.val_ofInt (x : Int) : (Rational.ofInt x).val = (x : ℚ) := by
  simp [Rational.ofInt, Rational.val]

theorem Rational.val_eq_zero_iff {r : Rational} (h : r.denom ≠ 0) :
    r.val = 0 ↔ r.numer = 0 := by
  unfold Rational.val
  rw [div_eq_zero_iff]
  constructor
  · rintro (hn | hdz)
    · exact_mod_cast hn
    · exact absurd (by exact_mod_cast hdz) h
  · intro hn; exact Or.inl (by exact_mod_cast hn)

theorem Rational.val_add {a b : Rational} (ha : a.denom ≠ 0) (hb : b.denom ≠ 0) :
    (a.add b).val = a.val + b.val := by
  unfold Rational.add
  rw [Rational.new_val (mul_ne_zero ha hb)]
  have haQ : (a.denom : ℚ) ≠ 0 := by exact_mod_cast ha
  have hbQ : (b.denom : ℚ) ≠ 0 := by exact_mod_cast hb
  unfold Rational.val
  push_cast
  field_simp
  ring

theorem Rational.val_mul {a b : Rational} (ha : a.denom ≠ 0) (hb : b.denom ≠ 0) :
    (a.mul b).val = a.val * b.val := by
  unfold Rational.mul
  rw [Rational.new_val (mul_ne_zero ha hb)]
  have haQ : (a.denom : ℚ) ≠ 0 := by exact_mod_cast ha
  have hbQ : (b.denom : ℚ) ≠ 0 := by exact_mod_cast hb
  unfold Rational.val
  push_cast
  field_simp

theorem Rational.val_neg {a : Rational} (ha : a.denom ≠ 0) :
    a.neg.val = -a.val := by
  unfold Rational.neg
  rw [Rational.new_val ha]
  unfold Rational.val
  push_cast
  ring

theorem Rational.val_sub {a b : Rational} (ha : a.denom ≠ 0) (hb : b.denom ≠ 0) :
    (a.sub b).val = a.val - b.val := by
  have hnb : b.neg.denom ≠ 0 := by
    have := (Rational.new_valid (d := b.denom) (n := -b.numer) hb).1
    exact this.ne'
  unfold Rational.sub
  rw [Rational.val_add ha hnb, Rational.val_neg hb]
  ring

theorem Rational.val_div {a b : Rational} (ha : a.denom ≠ 0) (hb : b.denom ≠ 0)
    (hbn : b.numer ≠ 0) : (a.div b).val = a.val / b.val := by
  unfold Rational.div Rational.mul Rational.reciprocal
  rw [Rational.new_val (mul_ne_zero ha hbn)]
  have haQ : (a.denom : ℚ) ≠ 0 := by exact_mod_cast ha
  have hbQ : (b.denom : ℚ) ≠ 0 := by exact_mod_cast hb
  have hbnQ : (b.numer : ℚ) ≠ 0 := by exact_mod_cast hbn
  unfold Rational.val
  push_cast
  field_simp

theorem Rational.val_ne_zero_of_numer {r : Rational} (hd : r.denom ≠ 0)
    (hn : r.numer ≠ 0) : r.val ≠ 0 :=
  fun h => hn ((Rational.val_eq_zero_iff hd).mp h)

theorem Rational.numer_ne_zero_of_val {r : Rational} (h : r.val ≠ 0) :
    r.numer ≠ 0 := by
  intro hn
  exact h (by unfold Rational.val; rw [hn]; simp)

/-- C5 (code_bug): `reduce(make(-3, 2))` has a negative denominator. `make(-3,2)`
itself is the canonical `-3/2`, but `reduce` divides by
`greatest_common_divisor(-3, 2) = -1` (the source omits the `.abs()` that
`Rational::new` applies), flipping both signs and producing `3 / -2`. -/
theorem claim_C5_counterexample :
    Rational.new (-3) 2 = ⟨-3, 2⟩ ∧
      (Rational.new (-3) 2).reduce = ⟨3, -2⟩ ∧
      greatest_common_divisor (-3) 2 = -1 ∧
      ((Rational.new (-3) 2).reduce).denom < 0 := by decide

/-- C8: every value built by the public constructor with a nonzero
denominator, or by `add`/`sub`/`mul`/`neg`/`div` (nonzero divisor) on values
satisfying the invariant, has a positive denominator and coprime
numerator/denominator magnitudes. -/
theorem claim_C8 (n d : Int) (a b c : Rational) (hd : d ≠ 0)
    (ha : a.Valid) (hb : b.Valid) (hc : c.Valid) (hcz : c.numer ≠ 0) :
    (Rational.new n d).Valid ∧ (a.add b).Valid ∧ (a.sub b).Valid ∧
      (a.mul b).Valid ∧ a.neg.Valid ∧ (a.div c).Valid := by
  have hda : a.denom ≠ 0 := ha.1.ne'
  have hdb : b.denom ≠ 0 := hb.1.ne'
  have hdc : c.denom ≠ 0 := hc.1.ne'
  refine ⟨Rational.new_valid hd, Rational.new_valid (mul_ne_zero hda hdb), ?_,
    Rational.new_valid (mul_ne_zero hda hdb), Rational.new_valid hda, ?_⟩
  · unfold Rational.sub
    have hnb : b.neg.denom ≠ 0 := (Rational.new_valid (n := -b.numer) hdb).1.ne'
    exact Rational.new_valid (mul_ne_zero hda hnb)
  · unfold Rational.div Rational.mul Rational.reciprocal
    exact Rational.new_valid (mul_ne_zero hda hcz)

/-- Witness for C8 at `n = 6`, `d = 4`, `a = 1/2`, `b = 1/3`, `c = -2/4`. -/
theorem claim_C8_witness :
    ((Rational.new 6 4).Valid ∧ ((Rational.new 1 2).add (Rational.new 1 3)).Valid ∧
      ((Rational.new 1 2).sub (Rational.new 1 3)).Valid ∧
      ((Rational.new 1 2).mul (Rational.new 1 3)).Valid ∧
      (Rational.new 1 2).neg.Valid ∧
      ((Rational.new 1 2).div (Rational.new (-2) 4)).Valid) :=
  claim_C8 6 4 (Rational.new 1 2) (Rational.new 1 3) (Rational.new (-2) 4)
    (by decide) (by constructor <;> decide) (by constructor <;> decide)
    (by constructor <;> decide) (by decide)

/-- C9: `Rational::new` panics with its division-by-zero condition exactly
when the denominator argument is zero, and `Div` on invariant-satisfying
values panics exactly when the divisor is the zero value. -/
theorem claim_C9 (n d : Int) (a b : Rational) (ha : a.Valid) (hb : b.Valid) :
    (Rational.new? n d = none ↔ d = 0) ∧ (a.div? b = none ↔ b.val = 0) := by
  constructor
  · unfold Rational.new?
    split
    · simp_all
    · simp_all
  · unfold Rational.div? Rational.new?
    have hda : a.denom ≠ 0 := ha.1.ne'
    have hdb : b.denom ≠ 0 := hb.1.ne'
    rw [Rational.val_eq_zero_iff hdb]
    split
    · rename_i h
      rcases mul_eq_zero.mp h with h' | h'
      · exact absurd h' hda
      · simp [h']
    · rename_i h
      constructor
      · intro hfalse; cases hfalse
      · intro hbn; exact absurd (by rw [hbn, mul_zero]) h

/-- Witness for C9 at `n = 1`, `d = 0`, `a = 1/2`, `b = 0/1`. -/
theorem claim_C9_witness :
    (Rational.new? 1 0 = none ↔ (0 : Int) = 0) ∧
      ((Rational.new 1 2).div? (Rational.ofInt 0) = none ↔
        (Rational.ofInt 0).val = 0) :=
  claim_C9 1 0 (Rational.new 1 2) (Rational.ofInt 0)
    (by constructor <;> decide) (by constructor <;> decide)

/-! The solver claims. -/

/-- C1 (code_bug): `(x+1)^3 = x^3 + 3x^2 + 3x + 1` has the rational root
`-1`, confirmed here by evaluating the polynomial at `-1`; but
`integer_factors(1) = [1]` (positive factors only, since the constant term
and leading coefficient are both positive), so the only candidate tested is
`1/1` and the solver returns no roots at all. -/
theorem claim_C1_counterexample :
    ((Polynomial.mk [(0, .ofInt 1), (1, .ofInt 3), (2, .ofInt 3), (3, .ofInt 1)]).eval
        (Rational.ofInt (-1))).beq (Rational.ofInt 0) = true ∧
      integer_factors 1 = [1] ∧
      solve_univariate_polynomial
          (Polynomial.mk [(0, .ofInt 1), (1, .ofInt 3), (2, .ofInt 3), (3, .ofInt 1)])
        = some [] := by decide

/-- C2 (code_bug): `2x^3 - 2` has the single rational root `1` of
multiplicity 1 (its first derivative `6x^2` does not vanish at `1`), but the
solver returns the root twice: the candidates `p/q = 1/1` and `p/q = 2/2`
coincide in value after `Rational::new`'s reduction, both are confirmed as
roots, and each appends its own copy. -/
theorem claim_C2_counterexample :
    solve_univariate_polynomial (Polynomial.mk [(0, .ofInt (-2)), (3, .ofInt 2)])
        = some [Rational.ofInt 1, Rational.ofInt 1] ∧
      ((Polynomial.mk [(0, .ofInt (-2)), (3, .ofInt 2)]).diff.eval
          (Rational.ofInt 1)).beq (Rational.ofInt 0) = false := by decide

theorem greatest_common_divisor_one_right (c : Int) :
    greatest_common_divisor c 1 = 1 := by
  have h1 : Int.tmod c 1 = 0 := Int.tmod_one c
  show gcd_go 2 c 1 = 1
  rw [show (2 : Nat) = 1 + 1 from rfl, gcd_go, if_neg one_ne_zero, h1,
    show (1 : Nat) = 0 + 1 from rfl, gcd_go, if_pos rfl]

theorem Rational.new_int_one (n : Int) : Rational.new n 1 = ⟨n, 1⟩ := by
  rw [Rational.new_eq]
  norm_num [Int.gcd]

theorem Rational.reduce_int_one (n : Int) : Rational.reduce ⟨n, 1⟩ = ⟨n, 1⟩ := by
  unfold Rational.reduce
  rw [greatest_common_divisor_one_right]
  simp

theorem Rational.beq_int_zero (c : Int) :
    ((Rational.mk c 1).beq (Rational.ofInt 0) = true) ↔ c = 0 := by
  unfold Rational.beq Rational.ofInt
  rw [Rational.reduce_int_one, Rational.reduce_int_one]
  simp [Rational.mk.injEq]

/-- A degree-0 polynomial with an integer constant coefficient evaluates to
that constant at every point. -/
theorem Polynomial.eval_degree_zero {p : Polynomial} (h : p.degree = 0)
    (hd : (p.get 0).denom = 1) (x : Rational) :
    p.eval x = ⟨(p.get 0).numer, 1⟩ := by
  unfold Polynomial.eval
  rw [h, show List.range (0 + 1) = [0] from rfl, List.foldl_cons, List.foldl_nil]
  unfold Rational.pow
  rw [pow_zero, pow_zero]
  unfold Rational.mul
  rw [mul_one, mul_one, hd]
  rw [Rational.new_int_one]
  unfold Rational.add Rational.ofInt
  norm_num
  exact Rational.new_int_one _

/-- C10: the solver returns an empty root list for every degree-0 polynomial
with an integer constant coefficient: the zero polynomial yields an empty
factor enumeration (`integer_factors 0 = []`) and hence no candidates, and a
nonzero constant is nonzero at every candidate `p/q`. -/
theorem claim_C10 (p : Polynomial) (c : Int) (h : p.degree = 0)
    (hc : (p.get 0).as_integer = some c) :
    solve_univariate_polynomial p = some [] := by
  have hpair : (p.get 0).denom = 1 ∧ (p.get 0).numer = c := by
    unfold Rational.as_integer at hc
    split at hc
    · exact ⟨by assumption, by injection hc⟩
    · cases hc
  have hd1 : (p.get 0).denom = 1 := hpair.1
  have hnc : (p.get 0).numer = c := hpair.2
  unfold solve_univariate_polynomial
  rw [h]
  show (do
    let c0 ← (p.get 0).as_integer
    let cl ← (p.get 0).as_integer
    let ps := integer_factors c0
    let qs := integer_factors cl
    some (ps.flatMap fun a =>
      qs.flatMap fun q =>
        let potential_root := Rational.new a q
        if (p.eval potential_root).beq (Rational.ofInt 0) then
          List.replicate (multiplicity_go (0 + 1) p.diff potential_root 1)
            potential_root
        else [])) = some []
  rw [hc]
  refine congrArg some ?_
  by_cases hcz : c = 0
  · subst hcz
    show List.flatMap (integer_factors 0) _ = []
    simp [integer_factors]
  · refine List.flatMap_eq_nil_iff.mpr ?_
    intro a _
    refine List.flatMap_eq_nil_iff.mpr ?_
    intro q _
    show (if (p.eval (Rational.new a q)).beq (Rational.ofInt 0) = true then
        List.replicate (multiplicity_go (0 + 1) p.diff (Rational.new a q) 1)
          (Rational.new a q)
      else []) = []
    rw [Polynomial.eval_degree_zero h hd1, hnc, if_neg]
    rw [Rational.beq_int_zero]
    exact hcz

/-- Witness for C10 at the constant polynomial `5`. -/
theorem claim_C10_witness :
    solve_univariate_polynomial (Polynomial.mk [(0, Rational.ofInt 5)]) = some [] :=
  claim_C10 (Polynomial.mk [(0, Rational.ofInt 5)]) 5 (by decide) (by decide)

theorem Rational.mul_denom_ne_zero {x y : Rational} (hx : x.denom ≠ 0)
    (hy : y.denom ≠ 0) : (x.mul y).denom ≠ 0 :=
  (Rational.new_valid (mul_ne_zero hx hy)).1.ne'

theorem Rational.neg_denom_ne_zero {x : Rational} (hx : x.denom ≠ 0) :
    x.neg.denom ≠ 0 :=
  (Rational.new_valid (n := -x.numer) hx).1.ne'

theorem Rational.sub_denom_ne_zero {x y : Rational} (hx : x.denom ≠ 0)
    (hy : y.denom ≠ 0) : (x.sub y).denom ≠ 0 :=
  (Rational.new_valid (mul_ne_zero hx (Rational.neg_denom_ne_zero hy))).1.ne'

theorem cmpInt_zero_zero : cmpInt 0 0 = .eq := by decide

/-- The degree-2 arm of the solver, given that the discriminant comparison
lands in the `Equal` branch. -/
theorem solve_degree_two_of_cmp_eq {p : Polynomial} (h2 : p.degree = 2)
    (hcmp : (((p.get 1).mul (p.get 1)).sub
        (((Rational.ofInt 4).mul (p.get 2)).mul (p.get 0))).cmp (Rational.ofInt 0)
      = .eq) :
    solve_univariate_polynomial p =
      some [(p.get 1).neg.div ((Rational.ofInt 2).mul (p.get 2))] := by
  unfold solve_univariate_polynomial
  rw [h2]
  show (match (((p.get 1).mul (p.get 1)).sub
        (((Rational.ofInt 4).mul (p.get 2)).mul (p.get 0))).cmp (Rational.ofInt 0) with
    | Ordering.gt => do
      let s1 ← (((p.get 1).mul (p.get 1)).sub
        (((Rational.ofInt 4).mul (p.get 2)).mul (p.get 0))).sqrt?
      let s2 ← (((p.get 1).mul (p.get 1)).sub
        (((Rational.ofInt 4).mul (p.get 2)).mul (p.get 0))).sqrt?
      some [(((p.get 1).neg).sub s1).div ((Rational.ofInt 2).mul (p.get 2)),
            (((p.get 1).neg).add s2).div ((Rational.ofInt 2).mul (p.get 2))]
    | Ordering.eq => some [((p.get 1).neg).div ((Rational.ofInt 2).mul (p.get 2))]
    | Ordering.lt => some []) =
    some [(p.get 1).neg.div ((Rational.ofInt 2).mul (p.get 2))]
  rw [hcmp]

/-- C7: a degree-2 polynomial with nonzero leading coefficient and vanishing
discriminant yields exactly one returned root, `-b / (2a)` — a single value,
not two copies. -/
theorem claim_C7 (p : Polynomial) (h2 : p.degree = 2)
    (ha : (p.get 2).denom ≠ 0) (hb : (p.get 1).denom ≠ 0)
    (hc : (p.get 0).denom ≠ 0) (haz : (p.get 2).val ≠ 0)
    (hD : (p.get 1).val ^ 2 - 4 * (p.get 2).val * (p.get 0).val = 0) :
    ∃ r : Rational,
      solve_univariate_polynomial p = some [r] ∧
      r.val = -(p.get 1).val / (2 * (p.get 2).val) := by
  have h4d : (Rational.ofInt 4).denom ≠ 0 := by norm_num [Rational.ofInt]
  have h2d : (Rational.ofInt 2).denom ≠ 0 := by norm_num [Rational.ofInt]
  have h4a : ((Rational.ofInt 4).mul (p.get 2)).denom ≠ 0 :=
    Rational.mul_denom_ne_zero h4d ha
  have h4ac : (((Rational.ofInt 4).mul (p.get 2)).mul (p.get 0)).denom ≠ 0 :=
    Rational.mul_denom_ne_zero h4a hc
  have hbb : ((p.get 1).mul (p.get 1)).denom ≠ 0 :=
    Rational.mul_denom_ne_zero hb hb
  have hdd : (((p.get 1).mul (p.get 1)).sub
      (((Rational.ofInt 4).mul (p.get 2)).mul (p.get 0))).denom ≠ 0 :=
    Rational.sub_denom_ne_zero hbb h4ac
  have hval : (((p.get 1).mul (p.get 1)).sub
      (((Rational.ofInt 4).mul (p.get 2)).mul (p.get 0))).val = 0 := by
    rw [Rational.val_sub hbb h4ac, Rational.val_mul hb hb,
      Rational.val_mul h4a hc, Rational.val_mul h4d ha, Rational.val_ofInt]
    rw [← hD]
    push_cast
    ring
  have hnum : (((p.get 1).mul (p.get 1)).sub
      (((Rational.ofInt 4).mul (p.get 2)).mul (p.get 0))).numer = 0 :=
    (Rational.val_eq_zero_iff hdd).mp hval
  have hcmp : (((p.get 1).mul (p.get 1)).sub
      (((Rational.ofInt 4).mul (p.get 2)).mul (p.get 0))).cmp (Rational.ofInt 0)
      = .eq := by
    unfold Rational.cmp
    rw [hnum]
    show cmpInt (0 * (1 : Int)) (_ * (0 : Int)) = .eq
    rw [zero_mul, mul_zero]
    exact cmpInt_zero_zero
  have hden2a : ((Rational.ofInt 2).mul (p.get 2)).denom ≠ 0 :=
    Rational.mul_denom_ne_zero h2d ha
  have hval2a : ((Rational.ofInt 2).mul (p.get 2)).val = 2 * (p.get 2).val := by
    rw [Rational.val_mul h2d ha, Rational.val_ofInt]
    norm_num
  have hnum2a : ((Rational.ofInt 2).mul (p.get 2)).numer ≠ 0 := by
    refine Rational.numer_ne_zero_of_val ?_
    rw [hval2a]
    exact mul_ne_zero two_ne_zero haz
  refine ⟨(p.get 1).neg.div ((Rational.ofInt 2).mul (p.get 2)),
    solve_degree_two_of_cmp_eq h2 hcmp, ?_⟩
  rw [Rational.val_div (Rational.neg_denom_ne_zero hb) hden2a hnum2a,
    Rational.val_neg hb, hval2a]

/-- Witness for C7 at `x^2 - 2x + 1 = (x - 1)^2`: the single root has value
`1`. -/
theorem claim_C7_witness :
    ∃ r : Rational,
      solve_univariate_polynomial
          (Polynomial.mk [(0, .ofInt 1), (1, .ofInt (-2)), (2, .ofInt 1)])
        = some [r] ∧ r.val = 1 := by
  obtain ⟨r, hr1, hr2⟩ :=
    claim_C7 (Polynomial.mk [(0, .ofInt 1), (1, .ofInt (-2)), (2, .ofInt 1)])
      (by decide) (by decide) (by decide) (by decide)
      (by
        rw [show (Polynomial.mk [(0, Rational.ofInt 1), (1, .ofInt (-2)),
          (2, .ofInt 1)]).get 2 = Rational.ofInt 1 from rfl, Rational.val_ofInt]
        norm_num)
      (by
        rw [show (Polynomial.mk [(0, Rational.ofInt 1), (1, .ofInt (-2)),
            (2, .ofInt 1)]).get 2 = Rational.ofInt 1 from rfl,
          show (Polynomial.mk [(0, Rational.ofInt 1), (1, .ofInt (-2)),
            (2, .ofInt 1)]).get 1 = Rational.ofInt (-2) from rfl,
          show (Polynomial.mk [(0, Rational.ofInt 1), (1, .ofInt (-2)),
            (2, .ofInt 1)]).get 0 = Rational.ofInt 1 from rfl]
        simp only [Rational.val_ofInt]
        norm_num)
  refine ⟨r, hr1, ?_⟩
  rw [hr2]
  rw [show (Polynomial.mk [(0, Rational.ofInt 1), (1, .ofInt (-2)),
      (2, .ofInt 1)]).get 2 = Rational.ofInt 1 from rfl,
    show (Polynomial.mk [(0, Rational.ofInt 1), (1, .ofInt (-2)),
      (2, .ofInt 1)]).get 1 = Rational.ofInt (-2) from rfl]
  simp only [Rational.val_ofInt]
  norm_num

/-! The BigInt claims. -/

/-- C3 (code_bug): `BigInt::cmp` on the equal-length positive values
`[1, 5]` and `[2, 5]` compares only the most significant limbs (both `5`)
and returns `Equal`, while `PartialEq` compares all limbs and returns
`false`; the two values also represent different integers. -/
theorem claim_C3_counterexample :
    BigInt.cmp ⟨.Positive, [1, 5]⟩ ⟨.Positive, [2, 5]⟩ = .eq ∧
      BigInt.beq ⟨.Positive, [1, 5]⟩ ⟨.Positive, [2, 5]⟩ = false ∧
      BigInt.toInt ⟨.Positive, [1, 5]⟩ ≠ BigInt.toInt ⟨.Positive, [2, 5]⟩ := by
  decide

/-- C4 (code_bug): `[1,5] - [2,5]` (both positive) should be `-1`, but
`sub_positive` consults `BigInt::cmp`, which wrongly reports the operands
equal (C3), so it subtracts the larger magnitude from the smaller, drops the
escaping borrow, and returns the positive value `2^128 - 1`. -/
theorem claim_C4_counterexample :
    BigInt.toInt (BigInt.sub ⟨.Positive, [1, 5]⟩ ⟨.Positive, [2, 5]⟩)
        = 2 ^ 128 - 1 ∧
      BigInt.toInt ⟨.Positive, [1, 5]⟩ - BigInt.toInt ⟨.Positive, [2, 5]⟩ = -1 := by
  decide

theorem add_loop_single (u v : Nat) :
    add_loop [u] [v] false =
      [(u + v) % 2 ^ 64] ++ (if 2 ^ 64 ≤ u + v then [1] else []) := by
  simp [add_loop, overflowing_add]
  split_ifs <;> simp_all
  omega

/-- C6: single-limb addition is exact: `from(x) + from(y)` represents
`x + y`, and when the sum overflows 64 bits the carry lands in a second
limb. -/
theorem claim_C6 (x y : Nat) (hx : x < 2 ^ 64) (hy : y < 2 ^ 64) :
    BigInt.toInt ((BigInt.ofU64 x).add (BigInt.ofU64 y)) = (x : Int) + (y : Int) ∧
      (2 ^ 64 ≤ x + y →
        ((BigInt.ofU64 x).add (BigInt.ofU64 y)).digits = [(x + y) % 2 ^ 64, 1]) := by
  have hdig : ((BigInt.ofU64 x).add (BigInt.ofU64 y))
      = ⟨Sign.Positive, [(x + y) % 2 ^ 64] ++ (if 2 ^ 64 ≤ x + y then [1] else [])⟩ := by
    show (BigInt.ofU64 x).add_positive (BigInt.ofU64 y) = _
    unfold BigInt.add_positive
    by_cases hgt : (BigInt.ofU64 x).cmp (BigInt.ofU64 y) = .gt
    · rw [if_pos hgt]
      show (⟨Sign.Positive, add_loop [x] [y] false⟩ : BigInt) = _
      rw [add_loop_single]
    · rw [if_neg hgt]
      show (⟨Sign.Positive, add_loop [y] [x] false⟩ : BigInt) = _
      rw [add_loop_single, Nat.add_comm y x]
  have hN : digits_val ([(x + y) % 2 ^ 64] ++ (if 2 ^ 64 ≤ x + y then [1] else []))
      = x + y := by
    by_cases hc : 2 ^ 64 ≤ x + y
    · rw [if_pos hc]
      show (x + y) % 2 ^ 64 + 2 ^ 64 * (1 + 2 ^ 64 * 0) = x + y
      omega
    · rw [if_neg hc]
      show (x + y) % 2 ^ 64 + 2 ^ 64 * 0 = x + y
      omega
  constructor
  · rw [hdig]
    show ((digits_val ([(x + y) % 2 ^ 64] ++ (if 2 ^ 64 ≤ x + y then [1] else []))
      : Nat) : Int) = (x : Int) + (y : Int)
    rw [hN]
    push_cast
    ring
  · intro hc
    rw [hdig]
    show [(x + y) % 2 ^ 64] ++ (if 2 ^ 64 ≤ x + y then [1] else [])
      = [(x + y) % 2 ^ 64, 1]
    rw [if_pos hc]
    rfl

/-- Witness for C6 at `x = 2^64 - 1`, `y = 1` (the spec's carry example:
the result is the two-limb value `[0, 1]`). -/
theorem claim_C6_witness :
    BigInt.toInt ((BigInt.ofU64 (2 ^ 64 - 1)).add (BigInt.ofU64 1))
        = ((2 ^ 64 - 1 : Nat) : Int) + ((1 : Nat) : Int) ∧
      ((BigInt.ofU64 (2 ^ 64 - 1)).add (BigInt.ofU64 1)).digits = [0, 1] := by
  have h := claim_C6 (2 ^ 64 - 1) 1 (by norm_num) (by norm_num)
  refine ⟨h.1, ?_⟩
  have h2 := h.2 (by norm_num)
  rw [h2]
  norm_num

end SymCore
